import Mathlib

/-!
Verification of the BTS dataset-loading and augmentation pipeline
(`pytorch/bts_dataloader.py`).

Images and depth maps are modelled as nested lists in height × width ×
channel order (`Img α`), mirroring the numpy arrays produced by
`np.asarray(Image.open(...))`.  Rational numbers stand in for exact float
arithmetic in the parts that only add, divide and compare; real numbers are
used where the code computes `image ** gamma` (a real power).
-/

namespace BTS

/-- An in-memory array in H×W×C layout: a list of rows, each row a list of
pixels, each pixel a list of channel values (numpy `ndarray` of `ndim` 3). -/
abbrev Img (α : Type) := List (List (List α))

/-- numpy `a.shape[0]`: the number of rows. -/
def shape0 (a : Img α) : ℕ := a.length

/-- numpy `a.shape[1]`: the number of pixels in a row (numpy arrays are
rectangular, so we read it off the first row). -/
def shape1 (a : Img α) : ℕ := (a.headD []).length

/-- numpy `a.shape[2]`: the number of channels of a pixel. -/
def shape2 (a : Img α) : ℕ := ((a.headD []).headD []).length

/-- Every row has exactly `w` pixels. -/
def rowsLen (a : Img α) (w : ℕ) : Prop := ∀ r ∈ a, r.length = w

instance (a : Img α) (w : ℕ) : Decidable (rowsLen a w) :=
  inferInstanceAs (Decidable (∀ r ∈ a, r.length = w))

/-- The array is rectangular in its first two dimensions (what numpy
guarantees for a real `ndarray`). -/
def Rect (a : Img α) : Prop := rowsLen a (shape1 a)

instance (a : Img α) : Decidable (Rect a) :=
  inferInstanceAs (Decidable (rowsLen a (shape1 a)))

/-- Every pixel has exactly 3 channels (an RGB image). -/
def channels3 (a : Img α) : Prop := ∀ r ∈ a, ∀ px ∈ r, px.length = 3

instance (a : Img α) : Decidable (channels3 a) :=
  inferInstanceAs (Decidable (∀ r ∈ a, ∀ px ∈ r, px.length = 3))

/-- Elementwise map over an H×W×C array (numpy broadcasting of a scalar
operation). -/
def mapImg (f : α → β) (a : Img α) : Img β :=
  a.map (List.map (List.map f))

/-- numpy slicing `a[y:y+h, x:x+w, :]`. -/
def slice2 (a : Img α) (y h x w : ℕ) : Img α :=
  ((a.drop y).take h).map (fun r => (r.drop x).take w)

/-- numpy `a[:, ::-1, :]`: mirror every row along the width axis. -/
def flipH (a : Img α) : Img α := a.map List.reverse

/-- The H×W×C element `a[i, j, c]`, with 0 for an out-of-range index. -/
def elem3 (a : Img ℚ) (i j c : ℕ) : ℚ := ((a.getD i []).getD j []).getD c 0

/- ------------------------------------------------------------------
`DataLoadPreprocess.random_crop` (bts_dataloader.py lines 134-143):
four `assert`s, a shared `(x, y)` offset, and the same slice applied to
image and depth.  The random draws `x`, `y` are parameters; an assertion
failure is `none`. -/

/-- Shallow embedding of `DataLoadPreprocess.random_crop`.  The source
asserts `img.shape[0] >= height`, `img.shape[1] >= width`,
`img.shape[0] == depth.shape[0]`, `img.shape[1] == depth.shape[1]`, then
slices both arrays at the same `(x, y)` offset.  `none` models an
assertion failure. -/
def random_crop (img depth : Img α) (height width x y : ℕ) :
    Option (Img α × Img α) :=
  if height ≤ shape0 img ∧ width ≤ shape1 img ∧
      shape0 img = shape0 depth ∧ shape1 img = shape1 depth then
    some (slice2 img y height x width, slice2 depth y height x width)
  else
    none

/- ------------------------------------------------------------------
Depth decoding (bts_dataloader.py lines 100-106):
`depth_gt = np.asarray(depth_gt, dtype=np.float32)`,
`depth_gt = np.expand_dims(depth_gt, axis=2)`, then division by 1000.0
for dataset 'nyu' and by 256.0 otherwise. -/

/-- numpy `np.expand_dims(d, axis=2)`: H×W → H×W×1. -/
def expand_dims2 (d : List (List ℚ)) : Img ℚ :=
  d.map (List.map (fun v => [v]))

/-- The depth post-processing of `DataLoadPreprocess.__getitem__` (train
branch): add a trailing channel axis, then scale the raw decoded values by
1/1000 for dataset "nyu" and by 1/256 for any other dataset. -/
def depth_from_raw (dataset : String) (raw : List (List ℚ)) : Img ℚ :=
  let depth_gt := expand_dims2 raw
  if dataset = "nyu" then mapImg (fun v => v / 1000) depth_gt
  else mapImg (fun v => v / 256) depth_gt

/- ------------------------------------------------------------------
Test branch of `DataLoadPreprocess.__getitem__` (bts_dataloader.py lines
112-123): the decoded image is divided by 255.0, and when `do_kb_crop` is
set, it is sliced to 352 rows anchored at the bottom
(`top_margin = height - 352`) and 1216 horizontally centered columns
(`left_margin = (width - 1216) / 2`, integer division). -/

/-- Shallow embedding of the test branch of
`DataLoadPreprocess.__getitem__`: normalize the decoded image to [0,1] and
apply the fixed-border ("kb") crop when enabled. -/
def test_getitem (do_kb_crop : Bool) (raw : Img ℚ) : Img ℚ :=
  let image := mapImg (fun v : ℚ => v / 255) raw
  if do_kb_crop then
    slice2 image (shape0 image - 352) 352 ((shape1 image - 1216) / 2) 1216
  else
    image

/- ------------------------------------------------------------------
`ToTensor` (bts_dataloader.py lines 184-208): `to_tensor` of a numpy array
is `pic.transpose((2, 0, 1))` (H×W×C → C×H×W); `__call__` then applies
`transforms.Normalize(mean=[0.485, 0.456, 0.406], std=[0.229, 0.224,
0.225])` to the image only. -/

/-- numpy `pic.transpose((2, 0, 1))`: channel-major re-layout, so that
`(transpose201 a)[c][i][j] = a[i][j][c]`. -/
def transpose201 (a : Img ℚ) : Img ℚ :=
  (List.range (shape2 a)).map
    (fun c => a.map (fun row => row.map (fun px => px.getD c 0)))

/-- The per-channel means of `transforms.Normalize` in `ToTensor`. -/
def means : List ℚ := [0.485, 0.456, 0.406]

/-- The per-channel standard deviations of `transforms.Normalize`. -/
def stds : List ℚ := [0.229, 0.224, 0.225]

/-- `transforms.Normalize(mean, std)` on a C×H×W tensor: channel `c` is
mapped through `v ↦ (v - mean[c]) / std[c]`. -/
def normalize (t : Img ℚ) : Img ℚ :=
  (List.range t.length).map
    (fun c => (t.getD c []).map
      (List.map (fun v => (v - means.getD c 0) / stds.getD c 1)))

/-- The inverse affine map `image * std + mean`, applied per channel. -/
def unnormalize (t : Img ℚ) : Img ℚ :=
  (List.range t.length).map
    (fun c => (t.getD c []).map
      (List.map (fun v => v * stds.getD c 1 + means.getD c 0)))

/-- Shallow embedding of `ToTensor.__call__` on a sample whose image and
depth are H×W×C numpy arrays: the image is transposed to C×H×W and
standardized; in train mode (`is_test = false`) the depth is transposed to
C×H×W and nothing else is done to it. -/
def ToTensor_call (is_test : Bool) (image depth : Img ℚ) :
    Img ℚ × Option (Img ℚ) :=
  (normalize (transpose201 image),
   if is_test then none else some (transpose201 depth))

/- ------------------------------------------------------------------
`DataLoadPreprocess.train_preprocess` and
`DataLoadPreprocess.augment_image` (bts_dataloader.py lines 145-178).
Channel values are real numbers because `image ** gamma` is a real power;
the random draws (`do_flip`, `do_augment`, `gamma`, `brightness`, the
three color factors) are parameters. -/

/-- Elementwise product of two same-shape arrays (numpy `a *= b` on two
H×W×C arrays; `zipWith` is exact on equal shapes). -/
def mulImg [Mul α] (a b : Img α) : Img α :=
  List.zipWith
    (fun ra rb => List.zipWith (fun pa pb => List.zipWith (· * ·) pa pb) ra rb)
    a b

/-- The `color_image` built in `augment_image`:
`np.stack([np.ones((h, w)) * colors[i] for i in range(3)], axis=2)`, an
h×w array whose every pixel is `[c0, c1, c2]`. -/
def color_image (h w : ℕ) (c0 c1 c2 : ℝ) : Img ℝ :=
  List.replicate h (List.replicate w [c0, c1, c2])

/-- numpy `np.clip(a, 0, 1)` elementwise. -/
noncomputable def clipImg (a : Img ℝ) : Img ℝ :=
  mapImg (fun v => min (max v 0) 1) a

/-- Shallow embedding of `DataLoadPreprocess.augment_image`: gamma power,
brightness multiply, per-channel color multiply, clip to [0, 1].  The
`dataset` flag of the source only changes the range the brightness draw is
taken from, so it appears in the range hypotheses, not here. -/
noncomputable def augment_image (image : Img ℝ)
    (gamma brightness c0 c1 c2 : ℝ) : Img ℝ :=
  let image_aug := mapImg (fun v => v ^ gamma) image
  let image_aug := mapImg (fun v => v * brightness) image_aug
  let image_aug := mulImg image_aug
    (color_image (shape0 image) (shape1 image) c0 c1 c2)
  clipImg image_aug

/-- Shallow embedding of `DataLoadPreprocess.train_preprocess`: `do_flip`
and `do_augment` are the two `random.random()` draws; each step runs when
its draw exceeds 0.5.  The flip applies to image and depth, the photometric
augmentation to the image only. -/
noncomputable def train_preprocess (image depth_gt : Img ℝ)
    (do_flip do_augment gamma brightness c0 c1 c2 : ℝ) : Img ℝ × Img ℝ :=
  let p := if do_flip > 1/2 then (flipH image, flipH depth_gt)
           else (image, depth_gt)
  let image' := if do_augment > 1/2 then
      augment_image p.1 gamma brightness c0 c1 c2
    else p.1
  (image', p.2)

/-- Every channel value of the array lies in [0, 1]. -/
def allInUnit (a : Img ℝ) : Prop :=
  ∀ r ∈ a, ∀ px ∈ r, ∀ v ∈ px, 0 ≤ v ∧ v ≤ 1

/- ------------------------------------------------------------------
Heap model of `augment_image`, for the aliasing claim: numpy arrays live at
addresses (indices into a list of arrays); `image ** gamma`,
`image_aug * brightness`, `np.stack(...)` and `np.clip(...)` each allocate
a fresh array (appended), while `image_aug *= color_image` writes its
operand's address in place (`List.set`). -/

/-- `DataLoadPreprocess.augment_image` replayed on an explicit heap: takes
the address of the input array, returns the final heap and the address of
the returned array. -/
noncomputable def augment_image_heap (heap : List (Img ℝ)) (image : ℕ)
    (gamma brightness c0 c1 c2 : ℝ) : List (Img ℝ) × ℕ :=
  let img := heap.getD image []
  -- image_aug = image ** gamma  (fresh array at address heap.length)
  let heap1 := heap ++ [mapImg (fun v => v ^ gamma) img]
  let a1 := heap.length
  -- image_aug = image_aug * brightness  (fresh array)
  let heap2 := heap1 ++ [mapImg (fun v => v * brightness) (heap1.getD a1 [])]
  let a2 := heap1.length
  -- white, color_image = np.stack(...)  (fresh array)
  let heap3 := heap2 ++ [color_image (shape0 img) (shape1 img) c0 c1 c2]
  let a3 := heap2.length
  -- image_aug *= color_image  (in place, at address a2)
  let heap4 := heap3.set a2 (mulImg (heap3.getD a2 []) (heap3.getD a3 []))
  -- image_aug = np.clip(image_aug, 0, 1)  (fresh array)
  let heap5 := heap4 ++ [clipImg (heap4.getD a2 [])]
  (heap5, heap4.length)

/- ------------------------------------------------------------------
`ToTensor.to_tensor` (bts_dataloader.py lines 201-232) together with the
type guards `_is_pil_image` / `_is_numpy_image` (lines 27-32). -/

/-- A numpy `ndarray` argument, classified by `ndim`; only 3-dimensional
data is ever consumed, so other ranks carry no payload beyond what the
guards inspect. -/
inductive NpArr where
  | d0 (v : ℚ)
  | d1 (a : List ℚ)
  | d2 (a : List (List ℚ))
  | d3 (a : Img ℚ)
  | dHigh (extra : ℕ)
deriving DecidableEq

/-- numpy `arr.ndim` (a `dHigh extra` array has `4 + extra` dimensions). -/
def NpArr.ndim : NpArr → ℕ
  | .d0 _ => 0
  | .d1 _ => 1
  | .d2 _ => 2
  | .d3 _ => 3
  | .dHigh extra => extra + 4

/-- A PIL image: mode string, size, and the flat pixel buffer that
`pic.tobytes()` / `np.array(pic)` exposes (row-major, channels
innermost). -/
structure PILImg where
  mode : String
  width : ℕ
  height : ℕ
  data : List ℚ
deriving DecidableEq

/-- The dynamic type of the argument of `ToTensor.to_tensor`: a PIL image,
a numpy array, or any other python object. -/
inductive Pic where
  | image (p : PILImg)
  | ndarray (a : NpArr)
  | other (ty : String)
deriving DecidableEq

/-- `_is_pil_image(img)`: `isinstance(img, Image.Image)`. -/
def is_pil_image : Pic → Bool
  | .image _ => true
  | _ => false

/-- `_is_numpy_image(img)`: `isinstance(img, np.ndarray) and (img.ndim in
\x7b2, 3\x7d)`. -/
def is_numpy_image : Pic → Bool
  | .ndarray a => a.ndim == 2 || a.ndim == 3
  | _ => false

/-- The exceptions `to_tensor` and the library calls inside it can raise:
the explicit `TypeError`, numpy's `ValueError` from `transpose((2, 0, 1))`
on an array that is not 3-dimensional, and torch's error from `view` when
the buffer size does not match the target shape. -/
inductive TErr where
  | typeError
  | valueError
  | runtimeError
deriving DecidableEq

/-- The channel count `to_tensor` assigns a PIL image: 3 for `YCbCr`, 1
for `I;16`, else `len(pic.mode)`. -/
def nchannelOf (mode : String) : ℕ :=
  if mode = "YCbCr" then 3 else if mode = "I;16" then 1 else mode.length

/-- `img.view(pic.size[1], pic.size[0], nchannel)` followed by
`.transpose(0, 1).transpose(0, 2)`: reshape the flat buffer to H×W×C and
re-layout to C×H×W, so element (c, i, j) is `data[(i*w + j)*ch + c]`. -/
def view_chw (data : List ℚ) (h w ch : ℕ) : Img ℚ :=
  (List.range ch).map (fun c =>
    (List.range h).map (fun i =>
      (List.range w).map (fun j => data.getD ((i * w + j) * ch + c) 0)))

/-- The PIL branch of `to_tensor`: build a tensor from the image buffer and
view it as (height, width, nchannel); `view` fails if the element count
does not match (e.g. mode "F" buffers or packed mode "1" bitmaps). -/
def pil_to_tensor (p : PILImg) : Except TErr (Img ℚ) :=
  if p.data.length = p.height * p.width * nchannelOf p.mode then
    .ok (view_chw p.data p.height p.width (nchannelOf p.mode))
  else
    .error .runtimeError

/-- Shallow embedding of `ToTensor.to_tensor`: raise `TypeError` unless the
input is a PIL image or a numpy array with `ndim` in \x7b2, 3\x7d; a numpy
array is transposed with axes (2, 0, 1), which numpy rejects with
`ValueError` unless the array is 3-dimensional; a PIL image goes through
the buffer/view path. -/
def to_tensor (pic : Pic) : Except TErr (Img ℚ) :=
  if !(is_pil_image pic || is_numpy_image pic) then
    .error .typeError
  else
    match pic with
    | .ndarray (.d3 a) => .ok (transpose201 a)
    | .ndarray _ => .error .valueError
    | .image p => pil_to_tensor p
    | .other _ => .error .typeError

/- ------------------------------------------------------------------
Generic list lemmas used below. -/

theorem getD_map_congr (l : List α) (f : α → β) (i : ℕ) (d : α) (d' : β)
    (hd : f d = d') : (l.map f).getD i d' = f (l.getD i d) := by
  induction l generalizing i with
  | nil => cases i <;> simp [List.getD, hd.symm]
  | cons a t ih =>
    cases i with
    | zero => simp [List.getD]
    | succ n => simpa [List.getD] using ih n

theorem length_slice2 (a : Img α) (y h x w : ℕ) (hy : y + h ≤ shape0 a) :
    (slice2 a y h x w).length = h := by
  unfold shape0 at hy
  simp only [slice2, List.length_map, List.length_take, List.length_drop]
  omega

theorem rowsLen_slice2 (a : Img α) (y h x w : ℕ) (ha : Rect a)
    (hx : x + w ≤ shape1 a) : rowsLen (slice2 a y h x w) w := by
  intro r hr
  simp only [slice2, List.mem_map] at hr
  obtain ⟨r₀, hr₀, rfl⟩ := hr
  have hmem : r₀ ∈ a := List.drop_subset y a (List.take_subset h _ hr₀)
  have hlen : r₀.length = shape1 a := ha r₀ hmem
  simp only [List.length_take, List.length_drop, hlen]
  omega

theorem channels3_slice2 (a : Img α) (y h x w : ℕ) (ha : channels3 a) :
    channels3 (slice2 a y h x w) := by
  intro r hr px hpx
  simp only [slice2, List.mem_map] at hr
  obtain ⟨r₀, hr₀, rfl⟩ := hr
  have hmem : r₀ ∈ a := List.drop_subset y a (List.take_subset h _ hr₀)
  exact ha r₀ hmem px (List.drop_subset x r₀ (List.take_subset w _ hpx))

theorem shape0_mapImg (f : α → β) (a : Img α) :
    shape0 (mapImg f a) = shape0 a := by
  simp [shape0, mapImg]

theorem headD_map (l : List α) (f : α → β) (d : α) (d' : β) (hd : f d = d') :
    (l.map f).headD d' = f (l.headD d) := by
  cases l <;> simp [hd.symm]

theorem shape1_mapImg (f : α → β) (a : Img α) :
    shape1 (mapImg f a) = shape1 a := by
  unfold shape1 mapImg
  rw [headD_map a (List.map (List.map f)) [] [] rfl, List.length_map]

theorem rowsLen_mapImg (f : α → β) (a : Img α) (w : ℕ) (ha : rowsLen a w) :
    rowsLen (mapImg f a) w := by
  intro r hr
  simp only [mapImg, List.mem_map] at hr
  obtain ⟨r₀, hr₀, rfl⟩ := hr
  simpa using ha r₀ hr₀

theorem channels3_mapImg (f : α → β) (a : Img α) (ha : channels3 a) :
    channels3 (mapImg f a) := by
  intro r hr px hpx
  simp only [mapImg, List.mem_map] at hr
  obtain ⟨r₀, hr₀, rfl⟩ := hr
  simp only [List.mem_map] at hpx
  obtain ⟨px₀, hpx₀, rfl⟩ := hpx
  simpa using ha r₀ hr₀ px₀ hpx₀

theorem stds_getD_ne_zero (c : ℕ) : stds.getD c 1 ≠ 0 := by
  rcases c with _ | _ | _ | n <;>
    simp [stds, List.getD_cons_succ, List.getD_cons_zero, List.getD_nil] <;>
    norm_num

theorem unnormalize_normalize (t : Img ℚ) : unnormalize (normalize t) = t := by
  have hval : ∀ c : ℕ, ∀ v : ℚ,
      (v - means.getD c 0) / stds.getD c 1 * stds.getD c 1 + means.getD c 0
        = v := by
    intro c v
    rw [div_mul_cancel₀ _ (stds_getD_ne_zero c)]
    ring
  have hlen : (normalize t).length = t.length := by
    simp [normalize]
  apply List.ext_getElem
  · simp [unnormalize, normalize]
  intro c hc hct
  have hc' : c < (normalize t).length := by
    simpa [unnormalize] using hc
  simp only [unnormalize, List.getElem_map, List.getElem_range,
    List.getD_eq_getElem _ _ hc']
  simp only [normalize, List.getElem_map, List.getElem_range]
  rw [List.getD_eq_getElem t [] hct]
  simp only [List.map_map, Function.comp_def, hval, List.map_id']

theorem allInUnit_clipImg (a : Img ℝ) : allInUnit (clipImg a) := by
  intro r hr px hpx v hv
  simp only [clipImg, mapImg, List.mem_map] at hr
  obtain ⟨r₀, _, rfl⟩ := hr
  simp only [List.mem_map] at hpx
  obtain ⟨px₀, _, rfl⟩ := hpx
  simp only [List.mem_map] at hv
  obtain ⟨u, _, rfl⟩ := hv
  exact ⟨le_min (le_max_right u 0) zero_le_one, min_le_right _ 1⟩

theorem getD_set_ne (l : List α) (i j : ℕ) (a d : α) (hij : i ≠ j) :
    (l.set i a).getD j d = l.getD j d := by
  induction l generalizing i j with
  | nil => simp
  | cons b t ih =>
    cases i with
    | zero =>
      cases j with
      | zero => exact absurd rfl hij
      | succ m => simp [List.getD]
    | succ n =>
      cases j with
      | zero => simp [List.getD]
      | succ m =>
        simpa [List.getD] using ih n m (fun hnm => hij (by rw [hnm]))

theorem heap_steps (heap : List (Img ℝ)) (i : ℕ)
    (h : i < heap.length) (A B C M D : Img ℝ) :
    ((((heap ++ [A] ++ [B] ++ [C]).set ((heap ++ [A]).length) M) ++ [D]).getD
        i []) = heap.getD i [] ∧
    (((heap ++ [A] ++ [B] ++ [C]).set ((heap ++ [A]).length) M)).length =
      heap.length + 3 := by
  constructor
  · rw [List.getD_append _ [D] [] i
      (by simp only [List.length_set, List.length_append,
        List.length_singleton]; omega)]
    rw [getD_set_ne _ _ _ _ _
      (by simp only [List.length_append, List.length_singleton]; omega)]
    rw [List.getD_append _ [C] [] i
      (by simp only [List.length_append, List.length_singleton]; omega)]
    rw [List.getD_append _ [B] [] i
      (by simp only [List.length_append, List.length_singleton]; omega)]
    rw [List.getD_append _ [A] [] i h]
  · simp only [List.length_set, List.length_append, List.length_singleton]

theorem pil_to_tensor_ne_typeError (p : PILImg) :
    pil_to_tensor p ≠ Except.error TErr.typeError := by
  unfold pil_to_tensor
  split <;> simp

theorem elem3_transpose201 (a : Img ℚ) (i j c : ℕ) (hc : c < shape2 a) :
    elem3 (transpose201 a) c i j = elem3 a i j c := by
  have hc' : c < (transpose201 a).length := by
    simpa [transpose201] using hc
  unfold elem3
  rw [List.getD_eq_getElem _ _ hc']
  simp only [transpose201, List.getElem_map, List.getElem_range]
  rw [getD_map_congr a _ i [] [] rfl,
    getD_map_congr (a.getD i []) _ j [] 0 (by simp)]

end BTS

/- ==================================================================
Claims
================================================================== -/

namespace BTS

/-- C1.  For image and depth arrays with identical spatial dimensions at
least the target `(height, width)`, and any crop offset `(x, y)` the code
can draw (`x ∈ [0, shape1 − width]`, `y ∈ [0, shape0 − height]`),
`random_crop` succeeds (no assertion fires) and returns the `(x, y)` window
of each input, whose spatial dimensions are exactly `(height, width)`. -/
theorem random_crop_yields_target_shape (img depth : Img α)
    (height width x y : ℕ) (hri : Rect img) (hrd : Rect depth)
    (h0 : shape0 img = shape0 depth) (h1 : shape1 img = shape1 depth)
    (hh : height ≤ shape0 img) (hw : width ≤ shape1 img)
    (hx : x + width ≤ shape1 img) (hy : y + height ≤ shape0 img) :
    random_crop img depth height width x y =
      some (slice2 img y height x width, slice2 depth y height x width) ∧
    shape0 (slice2 img y height x width) = height ∧
    rowsLen (slice2 img y height x width) width ∧
    shape0 (slice2 depth y height x width) = height ∧
    rowsLen (slice2 depth y height x width) width := by
  refine ⟨?_, ?_, ?_, ?_, ?_⟩
  · unfold random_crop
    rw [if_pos ⟨hh, hw, h0, h1⟩]
  · exact length_slice2 img y height x width hy
  · exact rowsLen_slice2 img y height x width hri hx
  · exact length_slice2 depth y height x width (hy.trans (le_of_eq h0))
  · exact rowsLen_slice2 depth y height x width hrd (hx.trans (le_of_eq h1))

/-- Witness for C1 at a concrete 2×2×1 image/depth pair with a 1×1 target
crop at offset (1, 1). -/
theorem random_crop_yields_target_shape_witness :
    random_crop ([[[1], [2]], [[3], [4]]] : Img ℚ)
        [[[5], [6]], [[7], [8]]] 1 1 1 1 =
      some ([[[4]]], [[[8]]]) ∧
    shape0 ([[[4]]] : Img ℚ) = 1 ∧ rowsLen ([[[4]]] : Img ℚ) 1 ∧
    shape0 ([[[8]]] : Img ℚ) = 1 ∧ rowsLen ([[[8]]] : Img ℚ) 1 := by
  have h := random_crop_yields_target_shape
    ([[[1], [2]], [[3], [4]]] : Img ℚ) [[[5], [6]], [[7], [8]]]
    1 1 1 1 (by decide) (by decide) (by decide) (by decide)
    (by decide) (by decide) (by decide) (by decide)
  simpa [slice2] using h

theorem getD_map_singleton (row : List ℚ) (f : ℚ → ℚ) (j : ℕ)
    (hf : f 0 = 0) :
    ((row.map (fun v => [f v])).getD j []).getD 0 0 = f (row.getD j 0) := by
  induction row generalizing j with
  | nil => cases j <;> simp [List.getD, hf]
  | cons a t ih =>
    cases j with
    | zero => simp [List.getD]
    | succ n => simpa [List.getD] using ih n

/-- C2.  Each physical depth value emitted by the train-mode loader is the
raw decoded value divided by 1000 when the dataset is "nyu" and by 256 for
any other dataset; in particular raw 1000 ↦ 1.0 under "nyu" and raw
256 ↦ 1.0 otherwise. -/
theorem depth_scale_spec (dataset : String) (raw : List (List ℚ))
    (i j : ℕ) :
    elem3 (depth_from_raw dataset raw) i j 0 =
      (raw.getD i []).getD j 0 / (if dataset = "nyu" then 1000 else 256) := by
  by_cases hds : dataset = "nyu" <;>
  · unfold depth_from_raw elem3 expand_dims2
    simp only [if_pos, if_neg, hds, if_true, if_false, reduceIte, mapImg,
      List.map_map]
    rw [getD_map_congr raw _ i [] [] rfl]
    simp only [Function.comp_def, List.map_map, List.map_cons, List.map_nil]
    rw [getD_map_singleton (raw.getD i []) _ j (by norm_num)]

/-- C3.  In test mode the loaded image keeps its 3 channels; with
`do_kb_crop` enabled (and a source of at least 352×1216) its spatial
dimensions are exactly (352, 1216), and with `do_kb_crop` disabled they are
the source image's native dimensions. -/
theorem test_mode_shape (k : Bool) (raw : Img ℚ) (hrect : Rect raw)
    (hch : channels3 raw)
    (hkb : k = true → 352 ≤ shape0 raw ∧ 1216 ≤ shape1 raw) :
    channels3 (test_getitem k raw) ∧
    (k = true → shape0 (test_getitem k raw) = 352 ∧
      rowsLen (test_getitem k raw) 1216) ∧
    (k = false → shape0 (test_getitem k raw) = shape0 raw ∧
      rowsLen (test_getitem k raw) (shape1 raw)) := by
  cases k with
  | false =>
    have hred : test_getitem false raw = mapImg (fun v : ℚ => v / 255) raw :=
      rfl
    rw [hred]
    refine ⟨channels3_mapImg _ raw hch, fun h => absurd h (by simp), fun _ => ?_⟩
    exact ⟨shape0_mapImg _ raw, rowsLen_mapImg _ raw (shape1 raw) hrect⟩
  | true =>
    obtain ⟨h352, h1216⟩ := hkb rfl
    have hred : test_getitem true raw =
        slice2 (mapImg (fun v : ℚ => v / 255) raw)
          (shape0 (mapImg (fun v : ℚ => v / 255) raw) - 352) 352
          ((shape1 (mapImg (fun v : ℚ => v / 255) raw) - 1216) / 2) 1216 :=
      rfl
    have hs0 : shape0 (mapImg (fun v : ℚ => v / 255) raw) = shape0 raw :=
      shape0_mapImg _ raw
    have hs1 : shape1 (mapImg (fun v : ℚ => v / 255) raw) = shape1 raw :=
      shape1_mapImg _ raw
    have hrect' : Rect (mapImg (fun v : ℚ => v / 255) raw) := by
      unfold Rect
      rw [hs1]
      exact rowsLen_mapImg _ raw _ hrect
    rw [hred]
    refine ⟨channels3_slice2 _ _ _ _ _ (channels3_mapImg _ raw hch),
      fun _ => ⟨?_, ?_⟩, fun h => absurd h (by simp)⟩
    · apply length_slice2
      rw [hs0]
      omega
    · apply rowsLen_slice2 _ _ _ _ _ hrect'
      rw [hs1]
      have := Nat.div_le_self (shape1 raw - 1216) 2
      omega

/-- Witness for C3 at a concrete 1×1×3 image with `do_kb_crop` disabled. -/
theorem test_mode_shape_witness :
    channels3 (test_getitem false ([[[255, 0, 51]]] : Img ℚ)) ∧
    (false = true → shape0 (test_getitem false ([[[255, 0, 51]]] : Img ℚ)) = 352 ∧
      rowsLen (test_getitem false ([[[255, 0, 51]]] : Img ℚ)) 1216) ∧
    (false = false →
      shape0 (test_getitem false ([[[255, 0, 51]]] : Img ℚ)) =
        shape0 ([[[255, 0, 51]]] : Img ℚ) ∧
      rowsLen (test_getitem false ([[[255, 0, 51]]] : Img ℚ))
        (shape1 ([[[255, 0, 51]]] : Img ℚ))) :=
  test_mode_shape false [[[255, 0, 51]]] (by decide) (by decide) (by decide)

/-- C4.  Standardizing an image with the Tensor Adapter (transpose to
C×H×W, then per-channel `(v - mean) / std`) and applying the inverse map
`image * std + mean` reproduces the transposed original exactly (rational
arithmetic models exact float arithmetic, so "within floating-point
tolerance" becomes equality). -/
theorem normalize_left_inverse (is_test : Bool) (image depth : Img ℚ) :
    unnormalize (ToTensor_call is_test image depth).1 = transpose201 image :=
  unnormalize_normalize (transpose201 image)

/-- C6.  Mirroring image and depth along the width axis twice returns
arrays identical to the originals. -/
theorem flip_involutive (image depth : Img α) :
    flipH (flipH image) = image ∧ flipH (flipH depth) = depth := by
  constructor <;>
    simp [flipH, List.map_map, Function.comp_def, List.reverse_reverse]

/-- C8.  The Tensor Adapter leaves depth numerically unmodified: in train
mode the output depth tensor is exactly the input depth array transposed
from H×W×C to C×H×W (element (c,i,j) of the output equals element (i,j,c)
of the input), and the mean/std standardization is applied to the image
component only. -/
theorem to_tensor_depth_unmodified (image depth : Img ℚ) (i j c : ℕ)
    (hc : c < shape2 depth) :
    (ToTensor_call false image depth).2 = some (transpose201 depth) ∧
    elem3 (transpose201 depth) c i j = elem3 depth i j c :=
  ⟨rfl, elem3_transpose201 depth i j c hc⟩

/-- Witness for C8 at a concrete 1×2×1 depth array. -/
theorem to_tensor_depth_unmodified_witness :
    (ToTensor_call false ([[[1, 2, 3]]] : Img ℚ) [[[5], [7]]]).2 =
      some (transpose201 [[[5], [7]]]) ∧
    elem3 (transpose201 [[[5], [7]]]) 0 0 1 = elem3 [[[5], [7]]] 0 1 0 :=
  to_tensor_depth_unmodified [[[1, 2, 3]]] [[[5], [7]]] 0 1 0 (by decide)

/-- C5.  For an input image with values in [0, 1] and any draws of gamma,
brightness (range depending on the dataset) and the three color factors
inside their documented ranges, every value of the array returned by
`augment_image` lies in [0, 1] (the final `np.clip` guarantees it). -/
theorem augment_image_range (dataset : String) (image : Img ℝ)
    (gamma brightness c0 c1 c2 : ℝ) (himg : allInUnit image)
    (hg : 0.9 ≤ gamma ∧ gamma ≤ 1.1)
    (hbn : dataset = "nyu" → 0.75 ≤ brightness ∧ brightness ≤ 1.25)
    (hbo : dataset ≠ "nyu" → 0.9 ≤ brightness ∧ brightness ≤ 1.1)
    (hc0 : 0.9 ≤ c0 ∧ c0 ≤ 1.1) (hc1 : 0.9 ≤ c1 ∧ c1 ≤ 1.1)
    (hc2 : 0.9 ≤ c2 ∧ c2 ≤ 1.1) :
    allInUnit (augment_image image gamma brightness c0 c1 c2) :=
  allInUnit_clipImg _

/-- Witness for C5: dataset "nyu", a 1×1×1 image of value 0, and all draws
equal to 1. -/
theorem augment_image_range_witness :
    allInUnit (augment_image [[[0]]] 1 1 1 1 1) :=
  augment_image_range "nyu" [[[0]]] 1 1 1 1 1
    (by
      intro r hr px hpx v hv
      rw [List.mem_singleton] at hr
      subst hr
      rw [List.mem_singleton] at hpx
      subst hpx
      rw [List.mem_singleton] at hv
      subst hv
      norm_num)
    (by norm_num) (fun _ => by norm_num) (fun h => absurd rfl h)
    (by norm_num) (by norm_num) (by norm_num)

/-- C7.  Whatever the flip and augmentation draws, the depth array returned
by `train_preprocess` is either the input depth unchanged or its exact
horizontal mirror; the photometric step never touches depth. -/
theorem train_preprocess_depth (image depth_gt : Img ℝ)
    (do_flip do_augment gamma brightness c0 c1 c2 : ℝ) :
    (train_preprocess image depth_gt do_flip do_augment
        gamma brightness c0 c1 c2).2 = depth_gt ∨
    (train_preprocess image depth_gt do_flip do_augment
        gamma brightness c0 c1 c2).2 = flipH depth_gt := by
  by_cases h : do_flip > 1/2
  · right
    show (if do_flip > 1/2 then (flipH image, flipH depth_gt)
        else (image, depth_gt)).2 = flipH depth_gt
    rw [if_pos h]
  · left
    show (if do_flip > 1/2 then (flipH image, flipH depth_gt)
        else (image, depth_gt)).2 = depth_gt
    rw [if_neg h]

/-- C9 counterexample.  A 1-dimensional numpy array IS an array-library
array, yet `to_tensor` raises `TypeError` on it (`_is_numpy_image` demands
`ndim` in \x7b2, 3\x7d), so "type error iff neither a PIL image nor a
numpy array" fails as stated. -/
theorem to_tensor_typeError_on_1d_ndarray :
    to_tensor (Pic.ndarray (NpArr.d1 [0])) = Except.error TErr.typeError ∧
    NpArr.ndim (NpArr.d1 [0]) = 1 := by
  constructor <;> rfl

/-- C9 (amended).  `to_tensor` raises `TypeError` iff its input is neither
a PIL image nor a numpy array of 2 or 3 dimensions; an accepted
3-dimensional array returns a tensor without raising, while an accepted
2-dimensional array passes the type check but fails in
`transpose((2, 0, 1))` with a `ValueError`. -/
theorem to_tensor_error_classification (pic : Pic)
    (a2 : List (List ℚ)) (a3 : Img ℚ) :
    (to_tensor pic = Except.error TErr.typeError ↔
      (is_pil_image pic || is_numpy_image pic) = false) ∧
    to_tensor (Pic.ndarray (NpArr.d3 a3)) = Except.ok (transpose201 a3) ∧
    to_tensor (Pic.ndarray (NpArr.d2 a2)) = Except.error TErr.valueError := by
  refine ⟨?_, rfl, rfl⟩
  cases pic with
  | image p =>
    simpa [to_tensor, is_pil_image, is_numpy_image] using
      pil_to_tensor_ne_typeError p
  | ndarray a =>
    cases a <;> simp [to_tensor, is_pil_image, is_numpy_image, NpArr.ndim]
  | other ty => simp [to_tensor, is_pil_image, is_numpy_image]

/-- C10.  `augment_image` never writes its argument: replaying its numpy
operations on an explicit heap, the array at the input address is
unchanged afterwards, and the returned address is a fresh one (the input
heap's length plus the three intermediate allocations), distinct from
the input address. -/
theorem augment_image_no_mutation (heap : List (Img ℝ)) (image : ℕ)
    (gamma brightness c0 c1 c2 : ℝ) (h : image < heap.length) :
    ((augment_image_heap heap image gamma brightness c0 c1 c2).1).getD
        image [] = heap.getD image [] ∧
    (augment_image_heap heap image gamma brightness c0 c1 c2).2 =
      heap.length + 3 ∧
    (augment_image_heap heap image gamma brightness c0 c1 c2).2 ≠ image := by
  have h1 : ((augment_image_heap heap image gamma brightness c0 c1 c2).1).getD
      image [] = heap.getD image [] :=
    (heap_steps heap image h _ _ _ _ _).1
  have h2 : (augment_image_heap heap image gamma brightness c0 c1 c2).2 =
      heap.length + 3 :=
    (heap_steps heap image h _ _ _ _ []).2
  exact ⟨h1, h2, by omega⟩

/-- Witness for C10: a one-array heap holding a 1×1×1 image, input address
0. -/
theorem augment_image_no_mutation_witness :
    ((augment_image_heap [[[[0]]]] 0 1 1 1 1 1).1).getD 0 [] =
      ([[[[0]]]] : List (Img ℝ)).getD 0 [] ∧
    (augment_image_heap [[[[0]]]] 0 1 1 1 1 1).2 =
      ([[[[0]]]] : List (Img ℝ)).length + 3 ∧
    (augment_image_heap [[[[0]]]] 0 1 1 1 1 1).2 ≠ 0 :=
  augment_image_no_mutation [[[[0]]]] 0 1 1 1 1 1 (by simp)

end BTS
